import Mathlib

/-!
# Gravity bridge: `x/gravity/types/ethereum.go`

A shallow embedding of the Ethereum address validator, the `ERC20Token` value
type and the gravity denomination codec, followed by theorems about them.

Go strings are byte sequences and `len` counts bytes, so a string is a list of
bytes here.  A Go `error` is a value of `GoError` (one constructor per
`fmt.Errorf` call site, carrying the arguments of the format) and `nil` is
`none`.  A `panic` is the `Except.error` branch carrying the panic message.
`sdk.Int` is an arbitrary-precision integer, embedded as `Int`; `uint64` is a
`Nat` below `2 ^ 64`.
-/

namespace Gravity

/-! ## Strings -/

/-- A byte of a Go string. -/
abbrev Byte := UInt8

/-- A Go `string`: an immutable sequence of bytes. -/
abbrev GoString := List Byte

/-- The bytes of a string literal of the source (Go source text is UTF-8). -/
def lit (s : String) : GoString :=
  s.data.flatMap String.utf8EncodeChar

/-- Go `strings.HasPrefix(s, prefix)`:
`len(s) >= len(prefix) && s[:len(prefix)] == prefix`. -/
def HasPrefix (s pre : GoString) : Bool :=
  decide (pre.length ≤ s.length) && (s.take pre.length == pre)

/-- Go `strings.TrimPrefix(s, prefix)`: `s[len(prefix):]` when `s` has the
prefix, `s` unchanged otherwise. -/
def TrimPrefix (s pre : GoString) : GoString :=
  if HasPrefix s pre then s.drop pre.length else s

/-- Go `strings.Join(elems, sep)`. -/
def Join : List GoString → GoString → GoString
  | [], _ => []
  | [x], _ => x
  | x :: y :: rest, sep => x ++ sep ++ Join (y :: rest) sep

/-! ## The regular expression of the validator

`regexp.MustCompile("^0x[0-9a-fA-F]{40}$").MatchString(a)` is embedded through
a small regular-expression syntax and a matcher that returns, for a start
position, every position at which a match of the expression can end.  Go's
`^` and `$` (no `m` flag) are the begin-of-text and end-of-text assertions and
`MatchString` searches for a match starting anywhere in the text.  Go matches
on runes decoded from UTF-8; the literal and the class of this pattern contain
only ASCII, which a byte of a multi-byte or invalid encoding never equals, so
matching byte by byte decides the same strings. -/

/-- Syntax of the regular expressions used by the validator. -/
inductive Regexp where
  | beginText : Regexp
  | endText : Regexp
  | literal (s : GoString) : Regexp
  | charClass (ranges : List (Byte × Byte)) : Regexp
  | cat (r s : Regexp) : Regexp
  | rep (r : Regexp) (n : Nat) : Regexp

/-- A class `[lo1-hi1 lo2-hi2 ...]` contains the byte. -/
def inClass (ranges : List (Byte × Byte)) (b : Byte) : Bool :=
  ranges.any (fun r => decide (r.1 ≤ b) && decide (b ≤ r.2))

/-- Run a matcher `n` times in sequence, collecting every reachable state. -/
def iterMatch (f : Nat → GoString → List (Nat × GoString)) :
    Nat → Nat → GoString → List (Nat × GoString)
  | 0, pos, rest => [(pos, rest)]
  | n + 1, pos, rest => (f pos rest).flatMap (fun p => iterMatch f n p.1 p.2)

/-- All the ways `r` can match starting at offset `pos`, where `rest` is the
text from `pos` on: the list of (end offset, text from there on). -/
def Regexp.matchAt : Regexp → Nat → GoString → List (Nat × GoString)
  | .beginText, pos, rest => if pos = 0 then [(pos, rest)] else []
  | .endText, pos, rest => if rest.isEmpty then [(pos, rest)] else []
  | .literal s, pos, rest =>
      if HasPrefix rest s then [(pos + s.length, rest.drop s.length)] else []
  | .charClass ranges, pos, rest =>
      match rest with
      | [] => []
      | b :: t => if inClass ranges b then [(pos + 1, t)] else []
  | .cat r s, pos, rest => (r.matchAt pos rest).flatMap (fun p => s.matchAt p.1 p.2)
  | .rep r n, pos, rest => iterMatch r.matchAt n pos rest

/-- Go `re.MatchString(s)`: the text contains a match of `re`. -/
def MatchString (re : Regexp) (s : GoString) : Bool :=
  (List.range (s.length + 1)).any (fun i => !(re.matchAt i (s.drop i)).isEmpty)

/-- The class `[0-9a-fA-F]`. -/
def hexClass : List (Byte × Byte) :=
  [(48, 57), (97, 102), (65, 70)]

/-- The compiled pattern `^0x[0-9a-fA-F]{40}$`. -/
def addressRegexp : Regexp :=
  .cat .beginText (.cat (.literal (lit "0x")) (.cat (.rep (.charClass hexClass) 40) .endText))

/-! ## Constants -/

/-- Modelled from the spec: `ModuleName`, the constant that `GravityDenomPrefix`
is set to, is declared in another file of the package; the spec gives the
prefix `"gravity"`. -/
def ModuleName : GoString := lit "gravity"

/-- The prefix of all assets minted by the module. -/
def GravityDenomPrefix : GoString := ModuleName

/-- The separator for gravity denoms. -/
def GravityDenomSeparator : GoString := lit ""

/-- The length of contract address strings. -/
def ETHContractAddressLen : Nat := 42

/-- The length of the denoms generated by the gravity module. -/
def GravityDenomLen : Nat :=
  GravityDenomPrefix.length + GravityDenomSeparator.length + ETHContractAddressLen

/-! ## Errors and library types -/

/-- The Go `error` values built in this file: one constructor per format
string, carrying the format's arguments in order. -/
inductive GoError where
  /-- The error `fmt.Errorf("empty")`. -/
  | empty : GoError
  /-- The error `fmt.Errorf("address(%s) doesn't pass regex", a)`. -/
  | regex (a : GoString) : GoError
  /-- The error `fmt.Errorf("address(%s) of the wrong length exp(%d) actual(%d)", a, x, y)`. -/
  | wrongLength (a : GoString) (exp actual : Nat) : GoError
  /-- The error `fmt.Errorf("denom prefix(%s) not equal to expected(%s)", denom, fullPrefix)`. -/
  | denomPrefix (denom fullPrefix : GoString) : GoError
  /-- The error `fmt.Errorf("error(%s) validating ethereum contract address", err)`. -/
  | validating (err : GoError) : GoError
  /-- The error `fmt.Errorf("len(denom)(%d) not equal to GravityDenomLen(%d)", x, y)`. -/
  | denomLen (len denomLen : Nat) : GoError
  /-- The error `sdkerrors.Wrap(err, msg)`. -/
  | wrap (err : GoError) (msg : String) : GoError
  deriving DecidableEq, Repr

/-- The part of go-ethereum's `common` package the file calls: the `Address`
type, `HexToAddress` and the `Hex` method.  Both functions are total in Go
(neither returns an error). -/
structure EthCommon where
  /-- The type `common.Address`. -/
  Address : Type
  /-- The function `common.HexToAddress`. -/
  HexToAddress : GoString → Address
  /-- The method `Address.Hex`. -/
  Hex : Address → GoString

/-- A `uint64` value is a natural number below `2 ^ 64`. -/
def IsUint64Nat (n : Nat) : Prop := n < 2 ^ 64

instance (n : Nat) : Decidable (IsUint64Nat n) := by
  unfold IsUint64Nat; infer_instance

/-- The method `sdk.Int.IsUint64`: the value fits an unsigned 64-bit integer. -/
def IsUint64 (i : Int) : Bool :=
  decide (0 ≤ i) && decide (i < 2 ^ 64)

/-- The method `sdk.Int.Uint64`: the value as a `uint64`, panicking when it
does not fit. -/
def Uint64 (i : Int) : Except String Nat :=
  if IsUint64 i then .ok i.toNat else .error "Uint64() out of bound"

/-- The function `sdk.NewIntFromUint64`. -/
def NewIntFromUint64 (n : Nat) : Int := (n : Int)

/-- The type `sdk.Coin`. -/
structure Coin where
  Denom : GoString
  Amount : Int
  deriving DecidableEq, Repr

/-! ## The file's functions -/

/-- Go `bytes.Compare(a, b)`: `-1`, `0` or `1` by lexicographic byte order. -/
def bytesCompare : GoString → GoString → Int
  | [], [] => 0
  | [], _ :: _ => -1
  | _ :: _, [] => 1
  | x :: xs, y :: ys => if x < y then -1 else if y < x then 1 else bytesCompare xs ys

/-- The function `EthAddrLessThan`. -/
def EthAddrLessThan (e o : GoString) : Bool :=
  bytesCompare e o == -1

/-- The function `ValidateEthereumAddress`; `none` is the `nil` error. -/
def ValidateEthereumAddress (a : GoString) : Option GoError :=
  if a = lit "" then
    some .empty
  else if !MatchString addressRegexp a then
    some (.regex a)
  else if a.length ≠ ETHContractAddressLen then
    some (.wrongLength a a.length ETHContractAddressLen)
  else
    none

/-- The type `ERC20Token`. -/
structure ERC20Token where
  Amount : Int
  Contract : GoString
  deriving DecidableEq, Repr

/-- The function `NewERC20Token`; `amount` is a `uint64`. -/
def NewERC20Token (amount : Nat) (contract : GoString) : ERC20Token :=
  { Amount := NewIntFromUint64 amount, Contract := contract }

/-- The function `NewSDKIntERC20Token`. -/
def NewSDKIntERC20Token (lib : EthCommon) (amount : Int) (contract : lib.Address) :
    ERC20Token :=
  { Amount := amount, Contract := lib.Hex contract }

/-- The method `ERC20Token.GravityCoin`. -/
def ERC20Token.GravityCoin (e : ERC20Token) : Coin :=
  { Amount := e.Amount, Denom := Join [GravityDenomPrefix, e.Contract] GravityDenomSeparator }

/-- The function `NewERC20TokenFromCoin`. -/
def NewERC20TokenFromCoin (lib : EthCommon) (coin : Coin) : ERC20Token :=
  NewSDKIntERC20Token lib coin.Amount
    (lib.HexToAddress (TrimPrefix coin.Denom (GravityDenomPrefix ++ GravityDenomSeparator)))

/-- The method `ERC20Token.ValidateBasic`. -/
def ERC20Token.ValidateBasic (e : ERC20Token) : Option GoError :=
  match ValidateEthereumAddress e.Contract with
  | some err => some (.wrap err "ethereum address")
  | none => none

/-- The method `ERC20Token.Add`; a panic is `Except.error` with its message.
The sum is the exact integer sum: the bound the sdk puts on the bit length of an
`Int`, far above 64 bits, is not modelled. -/
def ERC20Token.Add (e o : ERC20Token) : Except String ERC20Token :=
  if e.Contract ≠ o.Contract then
    .error "invalid contract address"
  else
    let sum := e.Amount + o.Amount
    if !IsUint64 sum then
      .error "invalid amount"
    else
      (Uint64 sum).map (fun u => NewERC20Token u e.Contract)

/-- The function `GravityDenomToERC20`, returning the pair `(string, error)`. -/
def GravityDenomToERC20 (denom : GoString) : GoString × Option GoError :=
  let fullPrefix := GravityDenomPrefix ++ GravityDenomSeparator
  if !HasPrefix denom fullPrefix then
    (lit "", some (.denomPrefix denom fullPrefix))
  else
    let contract := TrimPrefix denom fullPrefix
    match ValidateEthereumAddress contract with
    | some err => (lit "", some (.validating err))
    | none =>
        if denom.length ≠ GravityDenomLen then
          (lit "", some (.denomLen denom.length GravityDenomLen))
        else
          (contract, none)

/-! ## The address format in the words of the specification -/

/-- The hexadecimal digits: the characters `0-9`, `a-f` and `A-F`. -/
def hexDigits : GoString := lit "0123456789abcdefABCDEF"

/-- Follows the spec's words: the two characters `0x` followed by exactly 40
hexadecimal digits, and nothing else. -/
def IsHexAddress (a : GoString) : Prop :=
  ∃ h : GoString, a = lit "0x" ++ h ∧ h.length = 40 ∧ ∀ b ∈ h, b ∈ hexDigits

/-! ## Outcomes of calls that may panic -/

/-- Two calls end the same way: both panic, or both return the same token. -/
def SameOutcome (x y : Except String ERC20Token) : Prop :=
  ((∃ msg, x = .error msg) ∧ (∃ msg, y = .error msg)) ∨ (∃ t, x = .ok t ∧ y = .ok t)

/-- The calls `ab := a.Add(b); ab.Add(c)`: a panic of the first call ends the
evaluation. -/
def addLeft (a b c : ERC20Token) : Except String ERC20Token :=
  (a.Add b).bind (fun ab => ab.Add c)

/-- The call `a.Add(b.Add(c))`: the argument is evaluated first and its panic ends
the evaluation. -/
def addRight (a b c : ERC20Token) : Except String ERC20Token :=
  (b.Add c).bind (fun bc => a.Add bc)

/-! ## go-ethereum's `HexToAddress`

`common.HexToAddress` is library code, transcribed here from go-ethereum's
`common` package and Go's `encoding/hex`.  `goEthereum` leaves `Address.Hex` open;
the next section transcribes it for a given digest function. -/

/-- Go `encoding/hex`'s value of a hexadecimal digit, `none` for any other byte. -/
def fromHexChar (c : Byte) : Option Nat :=
  if 48 ≤ c ∧ c ≤ 57 then some (c.toNat - 48)
  else if 97 ≤ c ∧ c ≤ 102 then some (c.toNat - 97 + 10)
  else if 65 ≤ c ∧ c ≤ 70 then some (c.toNat - 65 + 10)
  else none

/-- The function `common.Hex2Bytes`: `hex.DecodeString` with its error dropped,
that is the bytes decoded before the first invalid digit or the odd last digit. -/
def Hex2Bytes : GoString → List Byte
  | p :: q :: rest =>
      match fromHexChar p, fromHexChar q with
      | some a, some b => UInt8.ofNat (16 * a + b) :: Hex2Bytes rest
      | _, _ => []
  | _ => []

/-- The function `has0xPrefix` of `common`. -/
def has0xPrefix (s : GoString) : Bool :=
  match s with
  | c0 :: c1 :: _ => c0 == 48 && (c1 == 120 || c1 == 88)
  | _ => false

/-- The function `common.FromHex`: drop a `0x` or `0X`, pad an odd number of
digits with a leading `0`, decode. -/
def FromHex (s : GoString) : List Byte :=
  let s1 := if has0xPrefix s then s.drop 2 else s
  let s2 := if s1.length % 2 = 1 then lit "0" ++ s1 else s1
  Hex2Bytes s2

/-- The function `common.BytesToAddress`: the last 20 bytes, padded on the left
with zero bytes to 20. -/
def BytesToAddress (b : List Byte) : List Byte :=
  let b1 := if b.length > 20 then b.drop (b.length - 20) else b
  List.replicate (20 - b1.length) 0 ++ b1

/-- The function `common.HexToAddress`. -/
def HexToAddress (s : GoString) : List Byte :=
  BytesToAddress (FromHex s)

/-- The `common` package with `HexToAddress` as transcribed and any rendering
`hexOf` for the `Hex` method. -/
def goEthereum (hexOf : List Byte → GoString) : EthCommon :=
  { Address := List Byte, HexToAddress := HexToAddress, Hex := hexOf }

/-! ## go-ethereum's `Address.Hex`

`Address.Hex` writes the 20 bytes as `0x` and 40 lower-case digits and then
turns a letter to upper case where the Keccak-256 digest of the digits has a
nibble above 7.  The digest is a parameter: `keccak256 s i` is byte `i` of the
32-byte digest of `s`. -/

/-- Go `encoding/hex`'s `hextable[n]`: the lower-case digit of a value below 16. -/
def hexDigitOf (n : Nat) : Byte :=
  (lit "0123456789abcdef").getD n 0

/-- Go `hex.Encode`: two lower-case digits for each byte, high nibble first. -/
def hexEncode : List Byte → GoString
  | [] => []
  | v :: rest => hexDigitOf (v.toNat / 16) :: hexDigitOf (v.toNat % 16) :: hexEncode rest

/-- The loop of `checksumHex` from digit `j` on (`j` is `i - 2` in the source):
`hashByte` is the high nibble of `hash[j/2]` for even `j` and the low nibble for
odd `j`; a byte above `'9'` with `hashByte > 7` is lowered by 32. -/
def checksumFrom (hash : Nat → Byte) : Nat → GoString → GoString
  | _, [] => []
  | j, ch :: rest =>
      let hashByte := if j % 2 = 0 then (hash (j / 2)).toNat / 16 else (hash (j / 2)).toNat % 16
      (if ch > 57 ∧ hashByte > 7 then ch - 32 else ch) :: checksumFrom hash (j + 1) rest

/-- The method `Address.Hex` (`checksumHex`) for a given digest function. -/
def checksumHex (keccak256 : GoString → Nat → Byte) (a : List Byte) : GoString :=
  lit "0x" ++ checksumFrom (keccak256 (hexEncode a)) 0 (hexEncode a)

/-- The `common` package with `HexToAddress` and `Hex` as transcribed, for a given
digest function. -/
def goEthereumLib (keccak256 : GoString → Nat → Byte) : EthCommon :=
  goEthereum (checksumHex keccak256)

/-! ## Letter case -/

/-- The lower-case form of an ASCII letter; any other byte is unchanged. -/
def toLowerByte (b : Byte) : Byte :=
  if 65 ≤ b ∧ b ≤ 90 then b + 32 else b

/-- A string with its ASCII letters in lower case: two strings are equal up to
letter case when their lower-case forms are equal. -/
def lowerCase (s : GoString) : GoString :=
  s.map toLowerByte

/-! ## Lemmas on strings and on the matcher -/

theorem hasPrefix_iff (s pre : GoString) : HasPrefix s pre = true ↔ ∃ t, s = pre ++ t := by
  unfold HasPrefix
  constructor
  · intro h
    simp only [Bool.and_eq_true, decide_eq_true_eq, beq_iff_eq] at h
    have hs := List.take_append_drop pre.length s
    rw [h.2] at hs
    exact ⟨s.drop pre.length, hs.symm⟩
  · rintro ⟨t, rfl⟩
    simp

theorem hasPrefix_append (pre t : GoString) : HasPrefix (pre ++ t) pre = true :=
  (hasPrefix_iff _ _).2 ⟨t, rfl⟩

theorem trimPrefix_append (pre t : GoString) : TrimPrefix (pre ++ t) pre = t := by
  simp [TrimPrefix, hasPrefix_append]

theorem join_pair (x y sep : GoString) : Join [x, y] sep = x ++ sep ++ y := rfl

theorem iterMatch_succ (f : Nat → GoString → List (Nat × GoString)) (n pos : Nat)
    (rest : GoString) :
    iterMatch f (n + 1) pos rest = (f pos rest).flatMap (fun p => iterMatch f n p.1 p.2) := rfl

theorem matchAt_charClass_nil (cls : List (Byte × Byte)) (pos : Nat) :
    (Regexp.charClass cls).matchAt pos [] = [] := rfl

theorem matchAt_charClass_cons (cls : List (Byte × Byte)) (pos : Nat) (b : Byte)
    (t : GoString) :
    (Regexp.charClass cls).matchAt pos (b :: t) =
      if inClass cls b then [(pos + 1, t)] else [] := rfl

theorem iterMatch_charClass (cls : List (Byte × Byte)) (n pos : Nat) (rest : GoString) :
    iterMatch (Regexp.charClass cls).matchAt n pos rest =
      if n ≤ rest.length ∧ (rest.take n).all (inClass cls) = true
      then [(pos + n, rest.drop n)] else [] := by
  induction n generalizing pos rest with
  | zero => simp [iterMatch]
  | succ n ih =>
    rw [iterMatch_succ]
    cases rest with
    | nil => simp [matchAt_charClass_nil]
    | cons b t =>
      rw [matchAt_charClass_cons]
      by_cases hb : inClass cls b = true
      · simp [hb, ih, Nat.add_assoc, Nat.add_comm 1 n]
      · simp [hb]

theorem matchAt_cat (r s : Regexp) (pos : Nat) (rest : GoString) :
    (Regexp.cat r s).matchAt pos rest =
      (r.matchAt pos rest).flatMap (fun p => s.matchAt p.1 p.2) := rfl

theorem matchAt_rep (r : Regexp) (n pos : Nat) (rest : GoString) :
    (Regexp.rep r n).matchAt pos rest = iterMatch r.matchAt n pos rest := rfl

theorem matchAt_beginText (pos : Nat) (rest : GoString) :
    Regexp.beginText.matchAt pos rest = if pos = 0 then [(pos, rest)] else [] := rfl

theorem matchAt_endText (pos : Nat) (rest : GoString) :
    Regexp.endText.matchAt pos rest = if rest.isEmpty then [(pos, rest)] else [] := rfl

theorem matchAt_literal (s : GoString) (pos : Nat) (rest : GoString) :
    (Regexp.literal s).matchAt pos rest =
      if HasPrefix rest s then [(pos + s.length, rest.drop s.length)] else [] := rfl

theorem flatMap_ite_single {α β : Type} (c : Prop) [Decidable c] (x : α) (f : α → List β) :
    (if c then [x] else []).flatMap f = if c then f x else [] := by
  split <;> simp

theorem matchAt_address (pos : Nat) (a : GoString) :
    addressRegexp.matchAt pos a =
      if pos = 0 ∧ HasPrefix a (lit "0x") = true ∧ 40 ≤ (a.drop 2).length ∧
          ((a.drop 2).take 40).all (inClass hexClass) = true ∧ (a.drop 2).drop 40 = []
      then [(42, [])] else [] := by
  have h2 : (lit "0x").length = 2 := by decide
  simp only [addressRegexp, matchAt_cat, matchAt_rep, matchAt_beginText, matchAt_endText,
    matchAt_literal, iterMatch_charClass, h2, flatMap_ite_single]
  by_cases hp : pos = 0
  · subst hp
    by_cases hx : HasPrefix a (lit "0x") = true
    · by_cases hc : 40 ≤ (a.drop 2).length ∧ ((a.drop 2).take 40).all (inClass hexClass) = true
      · cases hd : (a.drop 2).drop 40 with
        | nil => rw [if_pos rfl, if_pos hx, if_pos hc, if_pos (by rfl), if_pos ⟨rfl, hx, hc.1, hc.2, rfl⟩]
        | cons c t =>
          rw [if_pos rfl, if_pos hx, if_pos hc, if_neg (by simp), if_neg (by simp)]
      · rw [if_pos rfl, if_pos hx, if_neg hc, if_neg (fun h => hc ⟨h.2.2.1, h.2.2.2.1⟩)]
    · rw [if_pos rfl, if_neg hx, if_neg (fun h => hx h.2.1)]
  · rw [if_neg hp, if_neg (fun h => hp h.1)]

theorem any_range_succ_of_pos (n : Nat) (f : Nat → Bool) (h : ∀ i, 0 < i → f i = false) :
    (List.range (n + 1)).any f = f 0 := by
  cases h0 : f 0 with
  | true => exact List.any_eq_true.2 ⟨0, by simp, h0⟩
  | false =>
    apply Bool.eq_false_iff.2
    intro hany
    obtain ⟨i, -, hi⟩ := List.any_eq_true.1 hany
    rcases Nat.eq_zero_or_pos i with rfl | hpos
    · rw [h0] at hi; cases hi
    · rw [h i hpos] at hi; cases hi

theorem matchString_address (a : GoString) :
    MatchString addressRegexp a = true ↔
      HasPrefix a (lit "0x") = true ∧ (a.drop 2).length = 40 ∧
        (a.drop 2).all (inClass hexClass) = true := by
  unfold MatchString
  rw [any_range_succ_of_pos]
  · rw [List.drop_zero, matchAt_address]
    constructor
    · intro h
      split at h
      · next hc =>
        obtain ⟨-, hx, hlen, hall, hdrop⟩ := hc
        have hle : (a.drop 2).length ≤ 40 := List.drop_eq_nil_iff.1 hdrop
        refine ⟨hx, Nat.le_antisymm hle hlen, ?_⟩
        rwa [List.take_of_length_le hle] at hall
      · simp at h
    · rintro ⟨hx, hlen, hall⟩
      rw [if_pos]
      · rfl
      · refine ⟨rfl, hx, hlen.ge, ?_, ?_⟩
        · rwa [List.take_of_length_le hlen.le]
        · exact List.drop_eq_nil_iff.2 hlen.le
  · intro i hi
    rw [matchAt_address, if_neg (fun h => absurd h.1 (Nat.pos_iff_ne_zero.1 hi))]
    rfl

set_option maxRecDepth 100000 in
theorem inClass_hexClass_fin :
    ∀ n : Fin 256, inClass hexClass (UInt8.mk (BitVec.ofFin n)) =
      decide (UInt8.mk (BitVec.ofFin n) ∈ hexDigits) := by
  decide

theorem inClass_hexClass (b : Byte) : inClass hexClass b = true ↔ b ∈ hexDigits := by
  cases b with
  | mk v =>
    cases v with
    | ofFin n => rw [inClass_hexClass_fin n]; exact decide_eq_true_iff

theorem matchString_address_iff (a : GoString) :
    MatchString addressRegexp a = true ↔ IsHexAddress a := by
  rw [matchString_address]
  constructor
  · rintro ⟨hx, hlen, hall⟩
    obtain ⟨t, rfl⟩ := (hasPrefix_iff _ _).1 hx
    have hd : List.drop 2 (lit "0x" ++ t) = t := rfl
    rw [hd] at hlen hall
    refine ⟨t, rfl, hlen, fun b hb => (inClass_hexClass b).1 ?_⟩
    exact List.all_eq_true.1 hall b hb
  · rintro ⟨t, rfl, hlen, hall⟩
    have hd : List.drop 2 (lit "0x" ++ t) = t := rfl
    rw [hd]
    exact ⟨hasPrefix_append _ _, hlen, List.all_eq_true.2 fun b hb => (inClass_hexClass b).2 (hall b hb)⟩

theorem IsHexAddress.length_eq {a : GoString} (h : IsHexAddress a) : a.length = 42 := by
  obtain ⟨t, rfl, hlen, -⟩ := h
  rw [List.length_append, hlen]; rfl

theorem IsHexAddress.ne_nil {a : GoString} (h : IsHexAddress a) : a ≠ [] := by
  intro h0
  have := h.length_eq
  rw [h0] at this
  cases this

theorem validate_eq_none_iff (a : GoString) :
    ValidateEthereumAddress a = none ↔ IsHexAddress a := by
  unfold ValidateEthereumAddress
  constructor
  · intro h
    split at h
    · cases h
    · split at h
      · cases h
      · next hm =>
        rw [Bool.not_eq_true', Bool.not_eq_false] at hm
        exact (matchString_address_iff a).1 hm
  · intro h
    have hm := (matchString_address_iff a).2 h
    rw [if_neg (show ¬ a = lit "" from h.ne_nil), hm, if_neg (by simp), if_neg (by simp [ETHContractAddressLen, h.length_eq])]

/-- C3. `ValidateEthereumAddress(a)` returns no error exactly when `a` is the two
characters `0x` followed by exactly 40 characters each in `0-9`, `a-f` or `A-F`,
and nothing else. -/
theorem validateEthereumAddress_accepts_iff (a : GoString) :
    ValidateEthereumAddress a = none ↔
      ∃ h : GoString, a = lit "0x" ++ h ∧ h.length = 40 ∧
        ∀ b ∈ h, b ∈ lit "0123456789abcdefABCDEF" :=
  validate_eq_none_iff a

theorem validate_length {a : GoString} (h : ValidateEthereumAddress a = none) :
    a.length = 42 :=
  ((validate_eq_none_iff a).1 h).length_eq

theorem fullPrefix_length :
    (GravityDenomPrefix ++ GravityDenomSeparator).length + 42 = GravityDenomLen := by
  decide

theorem gravityCoin_denom (e : ERC20Token) :
    e.GravityCoin.Denom = GravityDenomPrefix ++ GravityDenomSeparator ++ e.Contract := rfl

theorem hasPrefix_eq_false_iff (s pre : GoString) : HasPrefix s pre = false ↔ ¬ pre <+: s := by
  rw [← Bool.not_eq_true, hasPrefix_iff]
  exact not_congr ⟨fun ⟨t, h⟩ => ⟨t, h.symm⟩, fun ⟨t, h⟩ => ⟨t, h.symm⟩⟩

theorem decode_append (c : GoString) :
    GravityDenomToERC20 (GravityDenomPrefix ++ GravityDenomSeparator ++ c) =
      match ValidateEthereumAddress c with
      | some err => (lit "", some (.validating err))
      | none => (c, none) := by
  unfold GravityDenomToERC20
  simp only [hasPrefix_append, trimPrefix_append, Bool.not_true, Bool.false_eq_true, if_false]
  cases hv : ValidateEthereumAddress c with
  | some err => rfl
  | none =>
    have hl := validate_length hv
    simp only [List.length_append, hl]
    rw [if_neg]
    rw [← fullPrefix_length, List.length_append]
    exact fun h => h rfl

theorem decode_ok_iff (d c : GoString) :
    GravityDenomToERC20 d = (c, none) ↔
      d = GravityDenomPrefix ++ GravityDenomSeparator ++ c ∧
        ValidateEthereumAddress c = none := by
  constructor
  · intro h
    by_cases hp : HasPrefix d (GravityDenomPrefix ++ GravityDenomSeparator) = true
    · obtain ⟨t, rfl⟩ := (hasPrefix_iff _ _).1 hp
      rw [decode_append] at h
      cases hv : ValidateEthereumAddress t with
      | some err => rw [hv] at h; cases h
      | none =>
        rw [hv] at h
        cases h
        exact ⟨rfl, hv⟩
    · unfold GravityDenomToERC20 at h
      simp only [hp, Bool.not_false, if_true] at h
      cases h
  · rintro ⟨rfl, hv⟩
    rw [decode_append, hv]

/-- C1. Round trip: for every string `a` accepted by `ValidateEthereumAddress` and
every `uint64` amount `n`, `GravityDenomToERC20` applied to the denomination of
`NewERC20Token(n, a).GravityCoin()` returns `(a, nil)`. -/
theorem gravityDenomToERC20_gravityCoin_roundtrip (a : GoString) (n : Nat)
    (_ : IsUint64Nat n) (ha : ValidateEthereumAddress a = none) :
    GravityDenomToERC20 (NewERC20Token n a).GravityCoin.Denom = (a, none) :=
  (decode_ok_iff _ a).2 ⟨rfl, ha⟩

/-- Witness for C1 at amount 5 and the contract `0x00…00AB` (40 digits). -/
theorem gravityDenomToERC20_gravityCoin_roundtrip_witness :
    GravityDenomToERC20
        (NewERC20Token 5 (lit "0x00000000000000000000000000000000000000AB")).GravityCoin.Denom =
      (lit "0x00000000000000000000000000000000000000AB", none) :=
  gravityDenomToERC20_gravityCoin_roundtrip _ 5 (by decide) (by decide)

/-- C2. Decoder characterisation: `GravityDenomToERC20(d)` succeeds with contract
`c` exactly when `d` is `GravityDenomPrefix ++ GravityDenomSeparator ++ c` and
`ValidateEthereumAddress(c)` succeeds; an accepted denomination therefore has a
validated address segment, has length `GravityDenomLen`, and any token with
contract `c` encodes back to `d`. -/
theorem gravityDenomToERC20_succeeds_iff (d c : GoString) :
    (GravityDenomToERC20 d = (c, none) ↔
      d = GravityDenomPrefix ++ GravityDenomSeparator ++ c ∧
        ValidateEthereumAddress c = none) ∧
    (GravityDenomToERC20 d = (c, none) →
      ValidateEthereumAddress c = none ∧
      c = TrimPrefix d (GravityDenomPrefix ++ GravityDenomSeparator) ∧
      d.length = GravityDenomLen ∧
      ∀ amount : Int, (ERC20Token.mk amount c).GravityCoin.Denom = d) := by
  refine ⟨decode_ok_iff d c, fun h => ?_⟩
  obtain ⟨rfl, hv⟩ := (decode_ok_iff d c).1 h
  refine ⟨hv, (trimPrefix_append _ _).symm, ?_, fun _ => rfl⟩
  rw [List.length_append, validate_length hv, fullPrefix_length]

theorem add_of_contract_eq (e o : ERC20Token) (hc : e.Contract = o.Contract) :
    e.Add o =
      if IsUint64 (e.Amount + o.Amount) then .ok ⟨e.Amount + o.Amount, e.Contract⟩
      else .error "invalid amount" := by
  unfold ERC20Token.Add
  rw [if_neg (not_not.2 hc)]
  dsimp only
  cases hu : IsUint64 (e.Amount + o.Amount) with
  | false => rfl
  | true =>
    have h0 : 0 ≤ e.Amount + o.Amount := by
      unfold IsUint64 at hu
      simp only [Bool.and_eq_true, decide_eq_true_eq] at hu
      exact hu.1
    simp only [Bool.not_true, Bool.false_eq_true, if_false, if_true, Uint64, hu, Except.map,
      NewERC20Token, NewIntFromUint64, Int.toNat_of_nonneg h0]

theorem add_contract_mismatch_aux (e o : ERC20Token) (hne : e.Contract ≠ o.Contract) :
    e.Add o = .error "invalid contract address" := by
  unfold ERC20Token.Add
  rw [if_pos hne]

theorem isUint64_iff (i : Int) : IsUint64 i = true ↔ 0 ≤ i ∧ i < 2 ^ 64 := by
  unfold IsUint64
  simp only [Bool.and_eq_true, decide_eq_true_eq]

/-- C4. Injectivity: two tokens whose contracts both pass `ValidateEthereumAddress`
and differ have different `GravityCoin` denominations. -/
theorem gravityCoin_denom_injective (t1 t2 : ERC20Token)
    (_ : ValidateEthereumAddress t1.Contract = none)
    (_ : ValidateEthereumAddress t2.Contract = none)
    (hne : t1.Contract ≠ t2.Contract) :
    t1.GravityCoin.Denom ≠ t2.GravityCoin.Denom := by
  rw [gravityCoin_denom, gravityCoin_denom]
  exact fun h => hne (List.append_cancel_left h)

/-- Witness for C4 at the contracts `0x00…00AB` and `0x00…00AC`. -/
theorem gravityCoin_denom_injective_witness :
    (NewERC20Token 1 (lit "0x00000000000000000000000000000000000000AB")).GravityCoin.Denom ≠
      (NewERC20Token 1 (lit "0x00000000000000000000000000000000000000AC")).GravityCoin.Denom :=
  gravityCoin_denom_injective _ _ (by decide) (by decide) (by decide)

/-- C5. Addition closure: for two tokens with equal `Contract` whose amounts sum to
a value in `[0, 2^64 - 1]`, `Add` does not panic and returns the token whose
`Amount` is the sum and whose `Contract` is the first token's. -/
theorem add_closure (t1 t2 : ERC20Token) (hc : t1.Contract = t2.Contract)
    (h0 : 0 ≤ t1.Amount + t2.Amount) (h1 : t1.Amount + t2.Amount ≤ 2 ^ 64 - 1) :
    t1.Add t2 = .ok { Amount := t1.Amount + t2.Amount, Contract := t1.Contract } := by
  rw [add_of_contract_eq t1 t2 hc, if_pos]
  exact (isUint64_iff _).2 ⟨h0, by omega⟩

/-- Witness for C5: `5 + (2^64 - 6)` reaches the largest `uint64`. -/
theorem add_closure_witness :
    (NewERC20Token 5 (lit "0xAB")).Add (NewERC20Token (2 ^ 64 - 6) (lit "0xAB")) =
      .ok { Amount := (5 : Int) + ((2 ^ 64 - 6 : Nat) : Int), Contract := lit "0xAB" } :=
  add_closure (NewERC20Token 5 (lit "0xAB")) (NewERC20Token (2 ^ 64 - 6) (lit "0xAB"))
    rfl (by decide) (by decide)

/-- C6. Addition precondition: for two tokens whose `Contract` strings differ,
`Add` panics with the contract-mismatch message whatever the amounts are. -/
theorem add_contract_mismatch (t1 t2 : ERC20Token) (hne : t1.Contract ≠ t2.Contract) :
    t1.Add t2 = .error "invalid contract address" := by
  unfold ERC20Token.Add
  rw [if_pos hne]

/-- Witness for C6 at two contracts and amounts whose sum exceeds 64 bits. -/
theorem add_contract_mismatch_witness :
    (NewERC20Token (2 ^ 64 - 1) (lit "0xAB")).Add (NewERC20Token (2 ^ 64 - 1) (lit "0xAC")) =
      .error "invalid contract address" :=
  add_contract_mismatch _ _ (by decide)

/-- C7. Addition overflow: for two tokens with equal `Contract`, `Add` panics
exactly when the integer sum of the amounts is negative or at least `2^64`, and a
returned token carries the exact sum (not a value reduced modulo `2^64`) and the
contract. -/
theorem add_panics_iff_not_uint64 (t1 t2 : ERC20Token) (hc : t1.Contract = t2.Contract) :
    ((∃ msg, t1.Add t2 = .error msg) ↔
      (t1.Amount + t2.Amount < 0 ∨ 2 ^ 64 ≤ t1.Amount + t2.Amount)) ∧
    (∀ r, t1.Add t2 = .ok r → r.Amount = t1.Amount + t2.Amount ∧ r.Contract = t1.Contract) := by
  rw [add_of_contract_eq t1 t2 hc]
  by_cases hu : IsUint64 (t1.Amount + t2.Amount) = true
  · have hb := (isUint64_iff _).1 hu
    rw [if_pos hu]
    refine ⟨⟨fun ⟨_, h⟩ => (by cases h), fun h => (by omega)⟩, fun r h => ?_⟩
    cases h
    exact ⟨rfl, rfl⟩
  · have hb : ¬ (0 ≤ t1.Amount + t2.Amount ∧ t1.Amount + t2.Amount < 2 ^ 64) :=
      fun h => hu ((isUint64_iff _).2 h)
    rw [if_neg hu]
    refine ⟨⟨fun _ => (by omega), fun _ => ⟨_, rfl⟩⟩, fun r h => (by cases h)⟩

/-- Witness for C7: `(2^64 - 1) + 1` on one contract panics. -/
theorem add_panics_iff_not_uint64_witness :
    ((∃ msg, (NewERC20Token (2 ^ 64 - 1) (lit "0xAB")).Add (NewERC20Token 1 (lit "0xAB")) =
        .error msg) ↔
      ((NewERC20Token (2 ^ 64 - 1) (lit "0xAB")).Amount + (NewERC20Token 1 (lit "0xAB")).Amount < 0 ∨
        2 ^ 64 ≤
          (NewERC20Token (2 ^ 64 - 1) (lit "0xAB")).Amount + (NewERC20Token 1 (lit "0xAB")).Amount)) ∧
    (∀ r, (NewERC20Token (2 ^ 64 - 1) (lit "0xAB")).Add (NewERC20Token 1 (lit "0xAB")) = .ok r →
      r.Amount =
          (NewERC20Token (2 ^ 64 - 1) (lit "0xAB")).Amount + (NewERC20Token 1 (lit "0xAB")).Amount ∧
        r.Contract = (NewERC20Token (2 ^ 64 - 1) (lit "0xAB")).Contract) :=
  add_panics_iff_not_uint64 _ _ rfl

theorem decode_of_not_hasPrefix (d : GoString)
    (h : HasPrefix d (GravityDenomPrefix ++ GravityDenomSeparator) = false) :
    GravityDenomToERC20 d =
      (lit "", some (.denomPrefix d (GravityDenomPrefix ++ GravityDenomSeparator))) := by
  unfold GravityDenomToERC20
  simp only [h, Bool.not_false, if_true]

theorem decode_of_hasPrefix (d : GoString)
    (h : HasPrefix d (GravityDenomPrefix ++ GravityDenomSeparator) = true) (x y : GoString) :
    (GravityDenomToERC20 d).2 ≠ some (.denomPrefix x y) := by
  unfold GravityDenomToERC20
  simp only [h, Bool.not_true, Bool.false_eq_true, if_false]
  cases ValidateEthereumAddress (TrimPrefix d (GravityDenomPrefix ++ GravityDenomSeparator)) with
  | some err => intro hh; cases hh
  | none =>
    dsimp only
    split <;> intro hh <;> cases hh

/-- C8. Decoder prefix check: for every string `d` that does not begin with
`GravityDenomPrefix ++ GravityDenomSeparator`, `GravityDenomToERC20(d)` returns the
empty contract together with the prefix-mismatch error; and a string for which it
returns a prefix-mismatch error does not begin with that prefix. -/
theorem gravityDenomToERC20_prefix_mismatch_iff (d : GoString) :
    (¬ (GravityDenomPrefix ++ GravityDenomSeparator) <+: d →
      GravityDenomToERC20 d =
        (lit "", some (.denomPrefix d (GravityDenomPrefix ++ GravityDenomSeparator)))) ∧
    (∀ x y : GoString, (GravityDenomToERC20 d).2 = some (.denomPrefix x y) →
      ¬ (GravityDenomPrefix ++ GravityDenomSeparator) <+: d) := by
  refine ⟨fun h => decode_of_not_hasPrefix d ((hasPrefix_eq_false_iff _ _).2 h), ?_⟩
  intro x y h
  apply (hasPrefix_eq_false_iff _ _).1
  cases hp : HasPrefix d (GravityDenomPrefix ++ GravityDenomSeparator) with
  | false => rfl
  | true => exact absurd h (decode_of_hasPrefix d hp x y)

/-- C9. Validator error kinds and order: `ValidateEthereumAddress` returns success
or one of its three errors; the empty string gets the empty-address error; every
non-empty string that is not `0x` followed by exactly 40 hexadecimal digits gets
the malformed-address error. -/
theorem validateEthereumAddress_error_kinds (a : GoString) :
    (ValidateEthereumAddress a = none ∨
      ValidateEthereumAddress a = some .empty ∨
      ValidateEthereumAddress a = some (.regex a) ∨
      ValidateEthereumAddress a = some (.wrongLength a a.length ETHContractAddressLen)) ∧
    ValidateEthereumAddress (lit "") = some .empty ∧
    (a ≠ lit "" → ¬ IsHexAddress a → ValidateEthereumAddress a = some (.regex a)) := by
  refine ⟨?_, rfl, fun hne hna => ?_⟩
  · unfold ValidateEthereumAddress
    split
    · exact Or.inr (Or.inl rfl)
    · split
      · exact Or.inr (Or.inr (Or.inl rfl))
      · split
        · exact Or.inr (Or.inr (Or.inr rfl))
        · exact Or.inl rfl
  · have hm : MatchString addressRegexp a = false := by
      rw [← Bool.not_eq_true]
      exact fun h => hna ((matchString_address_iff a).1 h)
    unfold ValidateEthereumAddress
    rw [if_neg hne, hm]
    rfl

/-- Counterexample to C10 as stated: the denomination
`other0x00…002A` does not begin with the gravity prefix, and
`NewERC20TokenFromCoin` returns a token for the coin all the same. -/
theorem newERC20TokenFromCoin_returns_without_prefix :
    ¬ (GravityDenomPrefix ++ GravityDenomSeparator) <+:
        lit "other0x000000000000000000000000000000000000002A" ∧
    ∀ lib : EthCommon, ∃ t : ERC20Token,
      NewERC20TokenFromCoin lib
          { Denom := lit "other0x000000000000000000000000000000000000002A", Amount := 5 } = t ∧
        t.Amount = 5 ∧
        t.Contract =
          lib.Hex (lib.HexToAddress (lit "other0x000000000000000000000000000000000000002A")) :=
  ⟨by decide, fun _ => ⟨_, rfl, rfl, rfl⟩⟩

/-- C12. `ValidateBasic` delegates to the address validator only: it succeeds
exactly when `ValidateEthereumAddress(e.Contract)` succeeds, so a token with the
same `Contract` and any other amount gets the same verdict. -/
theorem validateBasic_iff_validateEthereumAddress (e : ERC20Token) :
    (e.ValidateBasic = none ↔ ValidateEthereumAddress e.Contract = none) ∧
    (∀ amount : Int,
      (ERC20Token.mk amount e.Contract).ValidateBasic = e.ValidateBasic) := by
  refine ⟨?_, fun _ => rfl⟩
  unfold ERC20Token.ValidateBasic
  cases ValidateEthereumAddress e.Contract with
  | none => exact ⟨fun _ => rfl, fun _ => rfl⟩
  | some err => exact ⟨fun h => (by cases h), fun h => (by cases h)⟩

/-- Counterexample to C13 as stated: the token with the empty `Contract` has the
denomination `gravity`, of length 7, not `GravityDenomLen` = 49. -/
theorem gravityCoin_denom_length_empty_contract :
    (ERC20Token.mk 1 (lit "")).GravityCoin.Denom = lit "gravity" ∧
    (ERC20Token.mk 1 (lit "")).GravityCoin.Denom.length = 7 ∧
    (ERC20Token.mk 1 (lit "")).GravityCoin.Denom.length ≠ GravityDenomLen := by
  decide

/-- C13 (as the code has it). The denomination of `e.GravityCoin()` has length
`len(GravityDenomPrefix) + len(GravityDenomSeparator) + len(e.Contract)`; it is
`GravityDenomLen` exactly when `e.Contract` has length 42, so for every `Contract`
that passes `ValidateEthereumAddress`. -/
theorem gravityCoin_denom_length (e : ERC20Token) :
    e.GravityCoin.Denom.length =
      GravityDenomPrefix.length + GravityDenomSeparator.length + e.Contract.length ∧
    (e.GravityCoin.Denom.length = GravityDenomLen ↔
      e.Contract.length = ETHContractAddressLen) ∧
    (ValidateEthereumAddress e.Contract = none →
      e.GravityCoin.Denom.length = GravityDenomLen) := by
  have hlen : e.GravityCoin.Denom.length =
      GravityDenomPrefix.length + GravityDenomSeparator.length + e.Contract.length := by
    rw [gravityCoin_denom, List.length_append, List.length_append]
  have hiff : e.GravityCoin.Denom.length = GravityDenomLen ↔
      e.Contract.length = ETHContractAddressLen := by
    rw [hlen]
    unfold GravityDenomLen
    omega
  exact ⟨hlen, hiff, fun hv => hiff.2 (validate_length hv)⟩

/-- Witness for C13 (as the code has it): the denomination of the valid contract
`0x00…00AB` has length `GravityDenomLen`. -/
theorem gravityCoin_denom_length_witness :
    (ERC20Token.mk 1
        (lit "0x00000000000000000000000000000000000000AB")).GravityCoin.Denom.length =
      GravityDenomLen :=
  (gravityCoin_denom_length
    (ERC20Token.mk 1 (lit "0x00000000000000000000000000000000000000AB"))).2.2 (by decide)

/-- Counterexample to C14 as stated: the spec's example address has only 38
hexadecimal digits and `ValidateEthereumAddress` rejects it. -/
theorem validateEthereumAddress_spec_example_rejected :
    ValidateEthereumAddress (lit "0x000000000000000000000000000000000000AB") ≠ none := by
  decide

/-- C14 (as the code has it). The string `0x000000000000000000000000000000000000AB`
is 40 bytes long (`0x` and 38 digits) and gets the malformed-address error; with
40 digits, `0x00000000000000000000000000000000000000AB` is accepted. -/
theorem validateEthereumAddress_spec_example :
    (lit "0x000000000000000000000000000000000000AB").length = 40 ∧
    ValidateEthereumAddress (lit "0x000000000000000000000000000000000000AB") =
      some (.regex (lit "0x000000000000000000000000000000000000AB")) ∧
    ValidateEthereumAddress (lit "0x00000000000000000000000000000000000000AB") = none := by
  decide

/-- Counterexample to C15 as stated: for the spec's example contract (38 digits)
the denomination has length 47, not 49, and `GravityDenomToERC20` does not return
the contract. -/
theorem gravityCoin_spec_example_fails :
    (ERC20Token.mk 1 (lit "0x0000000000000000000000000000000000002A")).GravityCoin.Denom.length
      ≠ 49 ∧
    GravityDenomToERC20
        (ERC20Token.mk 1 (lit "0x0000000000000000000000000000000000002A")).GravityCoin.Denom ≠
      (lit "0x0000000000000000000000000000000000002A", none) := by
  decide

/-- C15 (as the code has it). With prefix `gravity` and empty separator,
`GravityCoin` for the contract `0x0000000000000000000000000000000000002A` yields
`gravity0x0000000000000000000000000000000000002A`, of length 47, and
`GravityDenomToERC20` rejects it with the validating error around the
malformed-address error; for the 40-digit contract
`0x000000000000000000000000000000000000002A` the denomination has length 49 and
decodes to the contract without error. -/
theorem gravityCoin_spec_example :
    GravityDenomPrefix = lit "gravity" ∧ GravityDenomSeparator = lit "" ∧
    (ERC20Token.mk 1 (lit "0x0000000000000000000000000000000000002A")).GravityCoin.Denom =
      lit "gravity0x0000000000000000000000000000000000002A" ∧
    (lit "gravity0x0000000000000000000000000000000000002A").length = 47 ∧
    GravityDenomToERC20 (lit "gravity0x0000000000000000000000000000000000002A") =
      (lit "", some (.validating (.regex (lit "0x0000000000000000000000000000000000002A")))) ∧
    (ERC20Token.mk 1 (lit "0x000000000000000000000000000000000000002A")).GravityCoin.Denom =
      lit "gravity0x000000000000000000000000000000000000002A" ∧
    (lit "gravity0x000000000000000000000000000000000000002A").length = 49 ∧
    GravityDenomToERC20 (lit "gravity0x000000000000000000000000000000000000002A") =
      (lit "0x000000000000000000000000000000000000002A", none) := by
  decide

/-- C16. The validator's length check is implied by its pattern check: a string
matching the address pattern has length `ETHContractAddressLen` = 42, so
`ValidateEthereumAddress` returns the wrong-length error for no input. -/
theorem validateEthereumAddress_never_wrongLength (a : GoString) :
    ETHContractAddressLen = 42 ∧
    (MatchString addressRegexp a = true → a.length = ETHContractAddressLen) ∧
    (∀ (x : GoString) (n m : Nat), ValidateEthereumAddress a ≠ some (.wrongLength x n m)) := by
  have hlen : MatchString addressRegexp a = true → a.length = ETHContractAddressLen :=
    fun h => ((matchString_address_iff a).1 h).length_eq
  refine ⟨rfl, hlen, fun x n m h => ?_⟩
  unfold ValidateEthereumAddress at h
  split at h
  · cases h
  · split at h
    · cases h
    · next hm =>
      rw [Bool.not_eq_true', Bool.not_eq_false] at hm
      rw [if_neg (not_not.2 (hlen hm))] at h
      cases h

/-- Witness for C16: the accepted address `0x00…00AB` has length 42. -/
theorem validateEthereumAddress_never_wrongLength_witness :
    (lit "0x00000000000000000000000000000000000000AB").length = ETHContractAddressLen :=
  (validateEthereumAddress_never_wrongLength
    (lit "0x00000000000000000000000000000000000000AB")).2.1 (by decide)

/-- C17. The decoder's length check is unreachable: a string that begins with
`GravityDenomPrefix ++ GravityDenomSeparator` and whose remainder passes
`ValidateEthereumAddress` has length `GravityDenomLen`, so `GravityDenomToERC20`
returns the length-mismatch error for no input. -/
theorem gravityDenomToERC20_never_denomLen (d : GoString) :
    ((GravityDenomPrefix ++ GravityDenomSeparator) <+: d →
      ValidateEthereumAddress (TrimPrefix d (GravityDenomPrefix ++ GravityDenomSeparator)) = none →
      d.length = GravityDenomLen) ∧
    (∀ n m : Nat, (GravityDenomToERC20 d).2 ≠ some (.denomLen n m)) := by
  constructor
  · rintro ⟨t, rfl⟩ hv
    rw [trimPrefix_append] at hv
    rw [List.length_append, validate_length hv, fullPrefix_length]
  · intro n m h
    by_cases hp : HasPrefix d (GravityDenomPrefix ++ GravityDenomSeparator) = true
    · obtain ⟨t, rfl⟩ := (hasPrefix_iff _ _).1 hp
      rw [decode_append] at h
      cases hv : ValidateEthereumAddress t with
      | some err => rw [hv] at h; cases h
      | none => rw [hv] at h; cases h
    · rw [decode_of_not_hasPrefix d (Bool.not_eq_true _ ▸ hp)] at h
      cases h

/-- Witness for C17: the denomination `gravity0x00…00AB` has length
`GravityDenomLen`. -/
theorem gravityDenomToERC20_never_denomLen_witness :
    (lit "gravity0x00000000000000000000000000000000000000AB").length = GravityDenomLen :=
  (gravityDenomToERC20_never_denomLen
    (lit "gravity0x00000000000000000000000000000000000000AB")).1 (by decide) (by decide)

theorem newERC20TokenFromCoin_append (lib : EthCommon) (amount : Int) (c : GoString) :
    NewERC20TokenFromCoin lib
        { Denom := GravityDenomPrefix ++ GravityDenomSeparator ++ c, Amount := amount } =
      { Amount := amount, Contract := lib.Hex (lib.HexToAddress c) } := by
  unfold NewERC20TokenFromCoin NewSDKIntERC20Token
  simp only [trimPrefix_append]

theorem validateBasic_eq_none_iff (e : ERC20Token) :
    e.ValidateBasic = none ↔ ValidateEthereumAddress e.Contract = none := by
  unfold ERC20Token.ValidateBasic
  cases ValidateEthereumAddress e.Contract with
  | none => exact ⟨fun _ => rfl, fun _ => rfl⟩
  | some err => exact ⟨fun h => (by cases h), fun h => (by cases h)⟩

/-- Counterexample to C11 as stated: the denominations `gravity0x00…00ab` and
`gravity0x00…00AB` decode to the contracts `0x00…00ab` and `0x00…00AB`, both
tokens pass `ValidateBasic`, and `HexToAddress` reads the two contracts as the
same address; so whatever `Hex` renders, `NewERC20TokenFromCoin` does not return
both contracts, nor both tokens. -/
theorem newERC20TokenFromCoin_not_inverse :
    GravityDenomToERC20 (lit "gravity0x00000000000000000000000000000000000000ab") =
      (lit "0x00000000000000000000000000000000000000ab", none) ∧
    GravityDenomToERC20 (lit "gravity0x00000000000000000000000000000000000000AB") =
      (lit "0x00000000000000000000000000000000000000AB", none) ∧
    (ERC20Token.mk 5 (lit "0x00000000000000000000000000000000000000ab")).ValidateBasic = none ∧
    (ERC20Token.mk 5 (lit "0x00000000000000000000000000000000000000AB")).ValidateBasic = none ∧
    (∀ hexOf : List Byte → GoString,
      ¬ ((NewERC20TokenFromCoin (goEthereum hexOf)
            { Denom := lit "gravity0x00000000000000000000000000000000000000ab",
              Amount := 5 }).Contract =
          lit "0x00000000000000000000000000000000000000ab" ∧
        (NewERC20TokenFromCoin (goEthereum hexOf)
            { Denom := lit "gravity0x00000000000000000000000000000000000000AB",
              Amount := 5 }).Contract =
          lit "0x00000000000000000000000000000000000000AB")) ∧
    (∀ hexOf : List Byte → GoString,
      ¬ (NewERC20TokenFromCoin (goEthereum hexOf)
            (ERC20Token.mk 5 (lit "0x00000000000000000000000000000000000000ab")).GravityCoin =
          ERC20Token.mk 5 (lit "0x00000000000000000000000000000000000000ab") ∧
        NewERC20TokenFromCoin (goEthereum hexOf)
            (ERC20Token.mk 5 (lit "0x00000000000000000000000000000000000000AB")).GravityCoin =
          ERC20Token.mk 5 (lit "0x00000000000000000000000000000000000000AB"))) := by
  have haddr : HexToAddress (lit "0x00000000000000000000000000000000000000ab") =
      HexToAddress (lit "0x00000000000000000000000000000000000000AB") := by decide
  have hne : lit "0x00000000000000000000000000000000000000ab" ≠
      lit "0x00000000000000000000000000000000000000AB" := by decide
  have h1 : ∀ hexOf : List Byte → GoString,
      (NewERC20TokenFromCoin (goEthereum hexOf)
        { Denom := lit "gravity0x00000000000000000000000000000000000000ab", Amount := 5 }) =
      { Amount := 5,
        Contract := hexOf (HexToAddress (lit "0x00000000000000000000000000000000000000ab")) } :=
    fun hexOf => newERC20TokenFromCoin_append (goEthereum hexOf) 5 _
  have h2 : ∀ hexOf : List Byte → GoString,
      (NewERC20TokenFromCoin (goEthereum hexOf)
        { Denom := lit "gravity0x00000000000000000000000000000000000000AB", Amount := 5 }) =
      { Amount := 5,
        Contract := hexOf (HexToAddress (lit "0x00000000000000000000000000000000000000AB")) } :=
    fun hexOf => newERC20TokenFromCoin_append (goEthereum hexOf) 5 _
  refine ⟨by decide, by decide, by decide, by decide, fun hexOf h => ?_, fun hexOf h => ?_⟩
  · obtain ⟨ha, hb⟩ := h
    rw [h1] at ha
    rw [h2] at hb
    dsimp only at ha hb
    rw [haddr] at ha
    exact hne (ha.symm.trans hb)
  · obtain ⟨ha, hb⟩ := h
    have ha' := congrArg ERC20Token.Contract ((h1 hexOf).symm.trans ha)
    have hb' := congrArg ERC20Token.Contract ((h2 hexOf).symm.trans hb)
    dsimp only at ha' hb'
    rw [haddr] at ha'
    exact hne (ha'.symm.trans hb')

theorem add_eq_ok_iff (e o t : ERC20Token) :
    e.Add o = .ok t ↔
      e.Contract = o.Contract ∧ 0 ≤ e.Amount + o.Amount ∧ e.Amount + o.Amount < 2 ^ 64 ∧
        t = { Amount := e.Amount + o.Amount, Contract := e.Contract } := by
  by_cases hc : e.Contract = o.Contract
  · rw [add_of_contract_eq e o hc]
    by_cases hu : IsUint64 (e.Amount + o.Amount) = true
    · have hb := (isUint64_iff _).1 hu
      rw [if_pos hu]
      constructor
      · intro h
        cases h
        exact ⟨hc, hb.1, hb.2, rfl⟩
      · rintro ⟨-, -, -, rfl⟩
        rfl
    · rw [if_neg hu]
      constructor
      · intro h; cases h
      · rintro ⟨-, h0, h1, -⟩
        exact absurd ((isUint64_iff _).2 ⟨h0, h1⟩) hu
  · rw [add_contract_mismatch_aux e o hc]
    constructor
    · intro h; cases h
    · rintro ⟨h, -⟩
      exact absurd h hc

theorem sameOutcome_iff (x y : Except String ERC20Token) :
    SameOutcome x y ↔ ∀ t, x = .ok t ↔ y = .ok t := by
  unfold SameOutcome
  constructor
  · rintro (⟨⟨m, rfl⟩, ⟨n, rfl⟩⟩ | ⟨t, rfl, rfl⟩)
    · intro t
      exact ⟨fun h => (by cases h), fun h => (by cases h)⟩
    · intro t
      exact Iff.rfl
  · intro h
    cases x with
    | ok t => exact Or.inr ⟨t, rfl, (h t).1 rfl⟩
    | error m =>
      cases y with
      | ok u => exact absurd ((h u).2 rfl) (by intro hh; cases hh)
      | error n => exact Or.inl ⟨⟨m, rfl⟩, ⟨n, rfl⟩⟩

theorem bind_eq_ok_iff (x : Except String ERC20Token)
    (f : ERC20Token → Except String ERC20Token) (t : ERC20Token) :
    x.bind f = .ok t ↔ ∃ u, x = .ok u ∧ f u = .ok t := by
  cases x with
  | ok u =>
    constructor
    · intro h; exact ⟨u, rfl, h⟩
    · rintro ⟨v, hv, h⟩
      cases hv
      exact h
  | error m =>
    constructor
    · intro h; cases h
    · rintro ⟨v, hv, -⟩
      cases hv

/-- C18. `Add` is commutative: `e.Add(o)` and `o.Add(e)` both panic (with the same
message) or both return the same token. -/
theorem add_comm_outcome (e o : ERC20Token) :
    SameOutcome (e.Add o) (o.Add e) ∧ e.Add o = o.Add e := by
  have heq : e.Add o = o.Add e := by
    by_cases hc : e.Contract = o.Contract
    · rw [add_of_contract_eq e o hc, add_of_contract_eq o e hc.symm, Int.add_comm o.Amount,
        hc]
    · rw [add_contract_mismatch_aux e o hc, add_contract_mismatch_aux o e (Ne.symm hc)]
  refine ⟨?_, heq⟩
  rw [sameOutcome_iff, heq]
  exact fun _ => Iff.rfl

theorem addLeft_eq_ok_iff (a b c t : ERC20Token) :
    addLeft a b c = .ok t ↔
      a.Contract = b.Contract ∧ a.Contract = c.Contract ∧
        0 ≤ a.Amount + b.Amount ∧ a.Amount + b.Amount < 2 ^ 64 ∧
        0 ≤ a.Amount + b.Amount + c.Amount ∧ a.Amount + b.Amount + c.Amount < 2 ^ 64 ∧
        t = { Amount := a.Amount + b.Amount + c.Amount, Contract := a.Contract } := by
  unfold addLeft
  rw [bind_eq_ok_iff]
  constructor
  · rintro ⟨u, hu, ht⟩
    obtain ⟨h1, h2, h3, rfl⟩ := (add_eq_ok_iff _ _ _).1 hu
    obtain ⟨h4, h5, h6, rfl⟩ := (add_eq_ok_iff _ _ _).1 ht
    exact ⟨h1, h4, h2, h3, h5, h6, rfl⟩
  · rintro ⟨h1, h4, h2, h3, h5, h6, rfl⟩
    exact ⟨_, (add_eq_ok_iff _ _ _).2 ⟨h1, h2, h3, rfl⟩, (add_eq_ok_iff _ _ _).2 ⟨h4, h5, h6, rfl⟩⟩

theorem addRight_eq_ok_iff (a b c t : ERC20Token) :
    addRight a b c = .ok t ↔
      b.Contract = c.Contract ∧ a.Contract = b.Contract ∧
        0 ≤ b.Amount + c.Amount ∧ b.Amount + c.Amount < 2 ^ 64 ∧
        0 ≤ a.Amount + (b.Amount + c.Amount) ∧ a.Amount + (b.Amount + c.Amount) < 2 ^ 64 ∧
        t = { Amount := a.Amount + (b.Amount + c.Amount), Contract := a.Contract } := by
  unfold addRight
  rw [bind_eq_ok_iff]
  constructor
  · rintro ⟨u, hu, ht⟩
    obtain ⟨h1, h2, h3, rfl⟩ := (add_eq_ok_iff _ _ _).1 hu
    obtain ⟨h4, h5, h6, rfl⟩ := (add_eq_ok_iff _ _ _).1 ht
    exact ⟨h1, h4, h2, h3, h5, h6, rfl⟩
  · rintro ⟨h1, h4, h2, h3, h5, h6, rfl⟩
    exact ⟨_, (add_eq_ok_iff _ _ _).2 ⟨h1, h2, h3, rfl⟩, (add_eq_ok_iff _ _ _).2 ⟨h4, h5, h6, rfl⟩⟩

/-- C19. `Add` is associative on non-negative amounts: for tokens `a`, `b`, `c`
with non-negative amounts, `a.Add(b).Add(c)` and `a.Add(b.Add(c))` both panic or
both return the same token.  Without the restriction it fails: with the amounts
`-1`, `1` and `2^64 - 1`, stored by `NewSDKIntERC20Token` on one contract, the
first returns a token and the second panics. -/
theorem add_assoc_outcome :
    (∀ a b c : ERC20Token, 0 ≤ a.Amount → 0 ≤ b.Amount → 0 ≤ c.Amount →
      SameOutcome (addLeft a b c) (addRight a b c)) ∧
    (∀ (lib : EthCommon) (addr : lib.Address),
      addLeft (NewSDKIntERC20Token lib (-1) addr) (NewSDKIntERC20Token lib 1 addr)
          (NewSDKIntERC20Token lib (2 ^ 64 - 1) addr) =
        .ok { Amount := 2 ^ 64 - 1, Contract := lib.Hex addr } ∧
      addRight (NewSDKIntERC20Token lib (-1) addr) (NewSDKIntERC20Token lib 1 addr)
          (NewSDKIntERC20Token lib (2 ^ 64 - 1) addr) =
        .error "invalid amount" ∧
      ¬ SameOutcome
        (addLeft (NewSDKIntERC20Token lib (-1) addr) (NewSDKIntERC20Token lib 1 addr)
          (NewSDKIntERC20Token lib (2 ^ 64 - 1) addr))
        (addRight (NewSDKIntERC20Token lib (-1) addr) (NewSDKIntERC20Token lib 1 addr)
          (NewSDKIntERC20Token lib (2 ^ 64 - 1) addr))) := by
  constructor
  · intro a b c ha hb hc
    rw [sameOutcome_iff]
    intro t
    rw [addLeft_eq_ok_iff, addRight_eq_ok_iff, Int.add_assoc]
    constructor
    · rintro ⟨h1, h2, -, -, h5, h6, ht⟩
      exact ⟨h1.symm.trans h2, h1, by omega, by omega, h5, h6, ht⟩
    · rintro ⟨h1, h2, -, -, h5, h6, ht⟩
      exact ⟨h2, h2.trans h1, by omega, by omega, h5, h6, ht⟩
  · intro lib addr
    have hl : addLeft (NewSDKIntERC20Token lib (-1) addr) (NewSDKIntERC20Token lib 1 addr)
          (NewSDKIntERC20Token lib (2 ^ 64 - 1) addr) =
        .ok { Amount := 2 ^ 64 - 1, Contract := lib.Hex addr } := by
      rw [addLeft_eq_ok_iff]
      refine ⟨rfl, rfl, ?_, ?_, ?_, ?_, ?_⟩ <;> simp [NewSDKIntERC20Token]
    have hr : addRight (NewSDKIntERC20Token lib (-1) addr) (NewSDKIntERC20Token lib 1 addr)
          (NewSDKIntERC20Token lib (2 ^ 64 - 1) addr) =
        .error "invalid amount" := by
      unfold addRight
      rw [add_of_contract_eq (NewSDKIntERC20Token lib 1 addr)
        (NewSDKIntERC20Token lib (2 ^ 64 - 1) addr) rfl, if_neg]
      · rfl
      · rw [isUint64_iff]
        simp [NewSDKIntERC20Token]
    refine ⟨hl, hr, ?_⟩
    rw [hl, hr, sameOutcome_iff]
    intro h
    exact absurd ((h _).1 rfl) (by intro hh; cases hh)

/-- Witness for C19: `1 + (2 + 3)` and `(1 + 2) + 3` on one contract. -/
theorem add_assoc_outcome_witness :
    SameOutcome
      (addLeft (NewERC20Token 1 (lit "0xAB")) (NewERC20Token 2 (lit "0xAB"))
        (NewERC20Token 3 (lit "0xAB")))
      (addRight (NewERC20Token 1 (lit "0xAB")) (NewERC20Token 2 (lit "0xAB"))
        (NewERC20Token 3 (lit "0xAB"))) :=
  add_assoc_outcome.1 _ _ _ (by decide) (by decide) (by decide)

theorem byte_lt_trichotomy (x y : Byte) : x < y ∨ x = y ∨ y < x := by
  rcases Nat.lt_trichotomy x.toNat y.toNat with h | h | h
  · exact Or.inl h
  · refine Or.inr (Or.inl ?_)
    cases x with
    | mk v =>
      cases y with
      | mk w =>
        have : v = w := BitVec.eq_of_toNat_eq h
        rw [this]
  · exact Or.inr (Or.inr h)

theorem bytesCompare_eq_neg_one_iff (e o : GoString) :
    bytesCompare e o = -1 ↔ List.Lex (· < ·) e o := by
  induction e generalizing o with
  | nil =>
    cases o with
    | nil => exact ⟨fun h => (by cases h), fun h => (by cases h)⟩
    | cons y ys => exact ⟨fun _ => List.Lex.nil, fun _ => rfl⟩
  | cons x xs ih =>
    cases o with
    | nil => exact ⟨fun h => (by cases h), fun h => (by cases h)⟩
    | cons y ys =>
      unfold bytesCompare
      by_cases hxy : x < y
      · rw [if_pos hxy]
        exact ⟨fun _ => List.Lex.rel hxy, fun _ => rfl⟩
      · rw [if_neg hxy]
        by_cases hyx : y < x
        · rw [if_pos hyx]
          constructor
          · intro h; cases h
          · intro h
            cases h with
            | cons h => exact absurd hyx (UInt8.lt_irrefl _)
            | rel h => exact absurd h hxy
        · rw [if_neg hyx, ih]
          have heq : x = y := by
            rcases byte_lt_trichotomy x y with h | h | h
            · exact absurd h hxy
            · exact h
            · exact absurd h hyx
          subst heq
          constructor
          · exact List.Lex.cons
          · intro h
            cases h with
            | cons h => exact h
            | rel h => exact absurd h hxy

theorem ethAddrLessThan_iff_lex (e o : GoString) :
    EthAddrLessThan e o = true ↔ List.Lex (· < ·) e o := by
  unfold EthAddrLessThan
  rw [beq_iff_eq, bytesCompare_eq_neg_one_iff]

theorem lex_byte_irrefl (e : GoString) : ¬ List.Lex (· < ·) e e := by
  induction e with
  | nil => intro h; cases h
  | cons x xs ih =>
    intro h
    cases h with
    | cons h => exact ih h
    | rel h => exact UInt8.lt_irrefl _ h

theorem lex_byte_trans {e o p : GoString} (h1 : List.Lex (· < ·) e o)
    (h2 : List.Lex (· < ·) o p) : List.Lex (· < ·) e p := by
  induction h1 generalizing p with
  | nil =>
    cases h2 with
    | cons _ => exact List.Lex.nil
    | rel _ => exact List.Lex.nil
  | cons _ ih =>
    cases h2 with
    | cons h => exact List.Lex.cons (ih h)
    | rel h => exact List.Lex.rel h
  | rel hr =>
    cases h2 with
    | cons _ => exact List.Lex.rel hr
    | rel h => exact List.Lex.rel (UInt8.lt_trans hr h)

theorem lex_byte_total {e o : GoString} (hne : e ≠ o) :
    List.Lex (· < ·) e o ∨ List.Lex (· < ·) o e := by
  induction e generalizing o with
  | nil =>
    cases o with
    | nil => exact absurd rfl hne
    | cons y ys => exact Or.inl List.Lex.nil
  | cons x xs ih =>
    cases o with
    | nil => exact Or.inr List.Lex.nil
    | cons y ys =>
      rcases byte_lt_trichotomy x y with h | h | h
      · exact Or.inl (List.Lex.rel h)
      · subst h
        have hne' : xs ≠ ys := fun h => hne (by rw [h])
        rcases ih hne' with h | h
        · exact Or.inl (List.Lex.cons h)
        · exact Or.inr (List.Lex.cons h)
      · exact Or.inr (List.Lex.rel h)

/-- C20. `EthAddrLessThan` is the byte-wise lexicographic order on strings and a
strict total order: irreflexive, transitive, and of two distinct strings exactly
one is less than the other; two addresses that differ only in letter case are
ordered (upper case first). -/
theorem ethAddrLessThan_strict_total_order :
    (∀ e o : GoString, EthAddrLessThan e o = true ↔ List.Lex (· < ·) e o) ∧
    (∀ e : GoString, EthAddrLessThan e e = false) ∧
    (∀ e o p : GoString, EthAddrLessThan e o = true → EthAddrLessThan o p = true →
      EthAddrLessThan e p = true) ∧
    (∀ e o : GoString, e ≠ o →
      (EthAddrLessThan e o = true ∧ EthAddrLessThan o e = false) ∨
      (EthAddrLessThan e o = false ∧ EthAddrLessThan o e = true)) ∧
    (EthAddrLessThan (lit "0x00000000000000000000000000000000000000AB")
        (lit "0x00000000000000000000000000000000000000ab") = true ∧
      EthAddrLessThan (lit "0x00000000000000000000000000000000000000ab")
        (lit "0x00000000000000000000000000000000000000AB") = false) := by
  have hfalse : ∀ e o : GoString, EthAddrLessThan e o = false ↔ ¬ List.Lex (· < ·) e o := by
    intro e o
    rw [← ethAddrLessThan_iff_lex, Bool.not_eq_true]
  refine ⟨ethAddrLessThan_iff_lex, fun e => (hfalse e e).2 (lex_byte_irrefl e), ?_, ?_, ?_⟩
  · intro e o p h1 h2
    rw [ethAddrLessThan_iff_lex] at h1 h2 ⊢
    exact lex_byte_trans h1 h2
  · intro e o hne
    rcases lex_byte_total hne with h | h
    · refine Or.inl ⟨(ethAddrLessThan_iff_lex e o).2 h, (hfalse o e).2 fun h' => ?_⟩
      exact lex_byte_irrefl e (lex_byte_trans h h')
    · refine Or.inr ⟨(hfalse e o).2 fun h' => ?_, (ethAddrLessThan_iff_lex o e).2 h⟩
      exact lex_byte_irrefl e (lex_byte_trans h' h)
  · decide

/-- Witness for C20: `0xAA`, `0xAB`, `0xab` are in increasing order. -/
theorem ethAddrLessThan_strict_total_order_witness :
    EthAddrLessThan (lit "0xAA") (lit "0xab") = true :=
  ethAddrLessThan_strict_total_order.2.2.1 (lit "0xAA") (lit "0xAB") (lit "0xab")
    (by decide) (by decide)

set_option maxRecDepth 100000 in
theorem fromHexChar_hexDigits_fin :
    ∀ n : Fin 256, UInt8.mk (BitVec.ofFin n) ∈ hexDigits →
      (fromHexChar (UInt8.mk (BitVec.ofFin n))).isSome = true ∧
      ((fromHexChar (UInt8.mk (BitVec.ofFin n))).getD 0 < 16 ∧
        hexDigitOf ((fromHexChar (UInt8.mk (BitVec.ofFin n))).getD 0) =
          toLowerByte (UInt8.mk (BitVec.ofFin n))) := by
  decide

theorem fromHexChar_of_mem {b : Byte} (h : b ∈ hexDigits) :
    ∃ k, fromHexChar b = some k ∧ k < 16 ∧ hexDigitOf k = toLowerByte b := by
  cases b with
  | mk v =>
    cases v with
    | ofFin n =>
      obtain ⟨h1, h2, h3⟩ := fromHexChar_hexDigits_fin n h
      cases hf : fromHexChar (UInt8.mk (BitVec.ofFin n)) with
      | none => rw [hf] at h1; cases h1
      | some k =>
        rw [hf] at h2 h3
        exact ⟨k, rfl, h2, h3⟩

theorem toNat_ofNat_nibbles {a b : Nat} (ha : a < 16) (hb : b < 16) :
    (UInt8.ofNat (16 * a + b)).toNat = 16 * a + b :=
  UInt8.toNat_ofNat_of_lt (by show 16 * a + b < 256; omega)

theorem hex2Bytes_cons_cons {p q : Byte} {a b : Nat} (rest : GoString)
    (hp : fromHexChar p = some a) (hq : fromHexChar q = some b) :
    Hex2Bytes (p :: q :: rest) = UInt8.ofNat (16 * a + b) :: Hex2Bytes rest := by
  rw [Hex2Bytes, hp, hq]

theorem hexEncode_hex2Bytes : ∀ (h : GoString), (∀ b ∈ h, b ∈ hexDigits) →
    h.length % 2 = 0 →
    hexEncode (Hex2Bytes h) = lowerCase h ∧ (Hex2Bytes h).length * 2 = h.length
  | [], _, _ => ⟨rfl, rfl⟩
  | [_], _, hl => absurd hl (by simp)
  | p :: q :: rest, hall, hl => by
    obtain ⟨a, hpa, ha, hda⟩ := fromHexChar_of_mem (hall p (by simp))
    obtain ⟨b, hqb, hb, hdb⟩ := fromHexChar_of_mem (hall q (by simp))
    have hrest : ∀ c ∈ rest, c ∈ hexDigits := fun c hc => hall c (by simp [hc])
    have hlr : rest.length % 2 = 0 := by
      simp only [List.length_cons] at hl
      omega
    obtain ⟨ih1, ih2⟩ := hexEncode_hex2Bytes rest hrest hlr
    rw [hex2Bytes_cons_cons rest hpa hqb]
    constructor
    · rw [hexEncode, toNat_ofNat_nibbles ha hb, ih1]
      have h1 : (16 * a + b) / 16 = a := by omega
      have h2 : (16 * a + b) % 16 = b := by omega
      rw [h1, h2, hda, hdb]
      rfl
    · simp only [List.length_cons]
      omega

/-- The byte `checksumHex` writes for the lower-case digit `ch`: the upper-case
letter when `ch` is above `'9'` and `up` holds. -/
theorem checksum_digit_facts :
    ∀ n, n < 16 → ∀ up : Bool,
      toLowerByte (if hexDigitOf n > 57 ∧ up = true then hexDigitOf n - 32 else hexDigitOf n) =
          hexDigitOf n ∧
        (if hexDigitOf n > 57 ∧ up = true then hexDigitOf n - 32 else hexDigitOf n) ∈ hexDigits ∧
        fromHexChar (if hexDigitOf n > 57 ∧ up = true then hexDigitOf n - 32 else hexDigitOf n) =
          some n := by
  decide

theorem checksum_digit_prop {n : Nat} (hn : n < 16) (up : Prop) [Decidable up] :
    toLowerByte (if hexDigitOf n > 57 ∧ up then hexDigitOf n - 32 else hexDigitOf n) =
        hexDigitOf n ∧
      (if hexDigitOf n > 57 ∧ up then hexDigitOf n - 32 else hexDigitOf n) ∈ hexDigits ∧
      fromHexChar (if hexDigitOf n > 57 ∧ up then hexDigitOf n - 32 else hexDigitOf n) =
        some n := by
  by_cases h : up
  · have := checksum_digit_facts n hn true
    simpa [h] using this
  · have := checksum_digit_facts n hn false
    simpa [h] using this

set_option maxRecDepth 100000 in
theorem ofNat_nibbles_fin :
    ∀ n : Fin 256,
      UInt8.ofNat (16 * ((UInt8.mk (BitVec.ofFin n)).toNat / 16) +
        (UInt8.mk (BitVec.ofFin n)).toNat % 16) = UInt8.mk (BitVec.ofFin n) := by
  decide

theorem ofNat_nibbles (v : Byte) : UInt8.ofNat (16 * (v.toNat / 16) + v.toNat % 16) = v := by
  cases v with
  | mk w =>
    cases w with
    | ofFin n => exact ofNat_nibbles_fin n

theorem byte_nibbles_lt (v : Byte) : v.toNat / 16 < 16 ∧ v.toNat % 16 < 16 := by
  have h : v.toNat < 256 := UInt8.toNat_lt_size v
  omega

theorem checksumFrom_hexEncode (hash : Nat → Byte) : ∀ (a : List Byte) (j : Nat),
    lowerCase (checksumFrom hash j (hexEncode a)) = hexEncode a ∧
      (∀ ch ∈ checksumFrom hash j (hexEncode a), ch ∈ hexDigits) ∧
      (checksumFrom hash j (hexEncode a)).length = 2 * a.length ∧
      Hex2Bytes (checksumFrom hash j (hexEncode a)) = a
  | [], _ => ⟨rfl, fun _ h => (by cases h), rfl, rfl⟩
  | v :: rest, j => by
    obtain ⟨ih1, ih2, ih3, ih4⟩ := checksumFrom_hexEncode hash rest (j + 1 + 1)
    obtain ⟨hhi, hlo⟩ := byte_nibbles_lt v
    simp only [hexEncode, checksumFrom]
    obtain ⟨a1, a2, a3⟩ := checksum_digit_prop hhi
      ((if j % 2 = 0 then (hash (j / 2)).toNat / 16 else (hash (j / 2)).toNat % 16) > 7)
    obtain ⟨b1, b2, b3⟩ := checksum_digit_prop hlo
      ((if (j + 1) % 2 = 0 then (hash ((j + 1) / 2)).toNat / 16
        else (hash ((j + 1) / 2)).toNat % 16) > 7)
    refine ⟨?_, ?_, ?_, ?_⟩
    · simp only [lowerCase, List.map_cons] at ih1 ⊢
      rw [a1, b1, ih1]
    · intro ch hch
      simp only [List.mem_cons] at hch
      rcases hch with rfl | rfl | hch
      · exact a2
      · exact b2
      · exact ih2 ch hch
    · simp only [List.length_cons, ih3]
      omega
    · rw [hex2Bytes_cons_cons _ a3 b3, ih4, ofNat_nibbles]

theorem bytesToAddress_length (b : List Byte) : (BytesToAddress b).length = 20 := by
  unfold BytesToAddress
  by_cases h : b.length > 20
  · simp only [h, if_true, List.length_append, List.length_replicate, List.length_drop]
    omega
  · simp only [h, if_false, List.length_append, List.length_replicate]
    omega

theorem bytesToAddress_of_length {b : List Byte} (h : b.length = 20) : BytesToAddress b = b := by
  unfold BytesToAddress
  simp [h]

theorem hexToAddress_length (s : GoString) : (HexToAddress s).length = 20 :=
  bytesToAddress_length _

theorem hexToAddress_0x {h : GoString} (hl : h.length = 40) :
    HexToAddress (lit "0x" ++ h) = BytesToAddress (Hex2Bytes h) := by
  have h0 : lit "0x" ++ h = 48 :: 120 :: h := rfl
  unfold HexToAddress FromHex
  rw [h0]
  have hp : has0xPrefix (48 :: 120 :: h) = true := rfl
  simp [hp, hl]

theorem hexToAddress_of_valid {c : GoString} (hc : IsHexAddress c) :
    hexEncode (HexToAddress c) = lowerCase (c.drop 2) ∧ lit "0x" ++ c.drop 2 = c := by
  obtain ⟨h, rfl, hl, hall⟩ := hc
  have hd : (lit "0x" ++ h).drop 2 = h := rfl
  obtain ⟨h1, h2⟩ := hexEncode_hex2Bytes h hall (by rw [hl])
  rw [hd, hexToAddress_0x hl, bytesToAddress_of_length (by omega), h1]
  exact ⟨rfl, rfl⟩

theorem checksumHex_isHexAddress (keccak256 : GoString → Nat → Byte) {a : List Byte}
    (ha : a.length = 20) : IsHexAddress (checksumHex keccak256 a) := by
  obtain ⟨-, h2, h3, -⟩ := checksumFrom_hexEncode (keccak256 (hexEncode a)) a 0
  exact ⟨_, rfl, by rw [h3, ha], h2⟩

theorem hexToAddress_checksumHex (keccak256 : GoString → Nat → Byte) {a : List Byte}
    (ha : a.length = 20) : HexToAddress (checksumHex keccak256 a) = a := by
  obtain ⟨-, -, h3, h4⟩ := checksumFrom_hexEncode (keccak256 (hexEncode a)) a 0
  unfold checksumHex
  rw [hexToAddress_0x (by rw [h3, ha]), h4, bytesToAddress_of_length ha]

theorem lowerCase_checksumHex (keccak256 : GoString → Nat → Byte) (a : List Byte) :
    lowerCase (checksumHex keccak256 a) = lit "0x" ++ hexEncode a := by
  obtain ⟨h1, -, -, -⟩ := checksumFrom_hexEncode (keccak256 (hexEncode a)) a 0
  unfold checksumHex
  have : ∀ s : GoString, lowerCase (lit "0x" ++ s) = lit "0x" ++ lowerCase s := fun _ => rfl
  rw [this, h1]

theorem lowerCase_hex_hexToAddress (keccak256 : GoString → Nat → Byte) {c : GoString}
    (hc : IsHexAddress c) :
    lowerCase (checksumHex keccak256 (HexToAddress c)) = lowerCase c := by
  obtain ⟨h1, h2⟩ := hexToAddress_of_valid hc
  rw [lowerCase_checksumHex, h1]
  conv_rhs => rw [← h2]
  rfl

theorem newERC20TokenFromCoin_lib (keccak256 : GoString → Nat → Byte) (coin : Coin) :
    NewERC20TokenFromCoin (goEthereumLib keccak256) coin =
      { Amount := coin.Amount,
        Contract := checksumHex keccak256
          (HexToAddress (TrimPrefix coin.Denom (GravityDenomPrefix ++ GravityDenomSeparator))) } :=
  rfl

theorem newERC20TokenFromCoin_lib_valid (keccak256 : GoString → Nat → Byte) (coin : Coin) :
    ValidateEthereumAddress (NewERC20TokenFromCoin (goEthereumLib keccak256) coin).Contract =
      none := by
  rw [newERC20TokenFromCoin_lib]
  exact (validate_eq_none_iff _).2 (checksumHex_isHexAddress keccak256 (hexToAddress_length _))

/-- C10 (as the code has it). `NewERC20TokenFromCoin` returns a token for every
coin and never fails: the `Amount` is the coin's; when the denomination is
`GravityDenomPrefix ++ GravityDenomSeparator ++ s` the `Contract` is
`Hex(HexToAddress(s))`, and when the denomination does not begin with that prefix
the `Contract` is `Hex(HexToAddress(coin.Denom))`.  With go-ethereum's
`HexToAddress` and `Hex` the returned token passes `ValidateBasic` in both
cases. -/
theorem newERC20TokenFromCoin_total (coin : Coin) :
    (∀ (lib : EthCommon) (s : GoString),
      coin.Denom = GravityDenomPrefix ++ GravityDenomSeparator ++ s →
      NewERC20TokenFromCoin lib coin =
        { Amount := coin.Amount, Contract := lib.Hex (lib.HexToAddress s) }) ∧
    (∀ lib : EthCommon, ¬ (GravityDenomPrefix ++ GravityDenomSeparator) <+: coin.Denom →
      NewERC20TokenFromCoin lib coin =
        { Amount := coin.Amount, Contract := lib.Hex (lib.HexToAddress coin.Denom) }) ∧
    (∀ keccak256 : GoString → Nat → Byte,
      (NewERC20TokenFromCoin (goEthereumLib keccak256) coin).Amount = coin.Amount ∧
      (NewERC20TokenFromCoin (goEthereumLib keccak256) coin).ValidateBasic = none) := by
  refine ⟨fun lib s hs => ?_, fun lib h => ?_, fun keccak256 => ⟨rfl, ?_⟩⟩
  · obtain ⟨denom, amount⟩ := coin
    dsimp only at hs ⊢
    subst hs
    exact newERC20TokenFromCoin_append lib amount s
  · unfold NewERC20TokenFromCoin NewSDKIntERC20Token TrimPrefix
    rw [(hasPrefix_eq_false_iff _ _).2 h]
    rfl
  · exact (validateBasic_eq_none_iff _).2 (newERC20TokenFromCoin_lib_valid keccak256 coin)

/-- Witness for C10 (as the code has it): the coin `7 uatom` has no gravity prefix
and no hexadecimal digits; the token returned has amount 7 and the zero address. -/
theorem newERC20TokenFromCoin_total_witness :
    ¬ (GravityDenomPrefix ++ GravityDenomSeparator) <+: lit "uatom" ∧
    ∀ keccak256 : GoString → Nat → Byte,
      NewERC20TokenFromCoin (goEthereumLib keccak256) { Denom := lit "uatom", Amount := 7 } =
        { Amount := 7, Contract := lit "0x0000000000000000000000000000000000000000" } :=
  ⟨by decide, fun keccak256 =>
    ((newERC20TokenFromCoin_total { Denom := lit "uatom", Amount := 7 }).2.1
      (goEthereumLib keccak256) (by decide)).trans rfl⟩

/-- C11 (as the code has it). For every coin whose denomination
`GravityDenomToERC20` decodes to a contract `c`, `NewERC20TokenFromCoin(coin)` has
`Amount` equal to `coin.Amount` and `Contract` equal to `c` up to letter case: it
is `Hex(HexToAddress(c))`, a valid address.  For every token `t` that passes
`ValidateBasic`, `NewERC20TokenFromCoin(t.GravityCoin())` has the amount of `t`
and the contract of `t` up to letter case, passes `ValidateBasic`, and is returned
unchanged by a second round trip. -/
theorem newERC20TokenFromCoin_of_decoded_up_to_case (keccak256 : GoString → Nat → Byte) :
    (∀ (coin : Coin) (c : GoString), GravityDenomToERC20 coin.Denom = (c, none) →
      (NewERC20TokenFromCoin (goEthereumLib keccak256) coin).Amount = coin.Amount ∧
      (NewERC20TokenFromCoin (goEthereumLib keccak256) coin).Contract =
        checksumHex keccak256 (HexToAddress c) ∧
      lowerCase (NewERC20TokenFromCoin (goEthereumLib keccak256) coin).Contract =
        lowerCase c ∧
      ValidateEthereumAddress
        (NewERC20TokenFromCoin (goEthereumLib keccak256) coin).Contract = none) ∧
    (∀ t : ERC20Token, t.ValidateBasic = none →
      (NewERC20TokenFromCoin (goEthereumLib keccak256) t.GravityCoin).Amount = t.Amount ∧
      lowerCase (NewERC20TokenFromCoin (goEthereumLib keccak256) t.GravityCoin).Contract =
        lowerCase t.Contract ∧
      (NewERC20TokenFromCoin (goEthereumLib keccak256) t.GravityCoin).ValidateBasic = none ∧
      NewERC20TokenFromCoin (goEthereumLib keccak256)
          (NewERC20TokenFromCoin (goEthereumLib keccak256) t.GravityCoin).GravityCoin =
        NewERC20TokenFromCoin (goEthereumLib keccak256) t.GravityCoin) := by
  have hdec : ∀ (coin : Coin) (c : GoString), GravityDenomToERC20 coin.Denom = (c, none) →
      (NewERC20TokenFromCoin (goEthereumLib keccak256) coin).Contract =
        checksumHex keccak256 (HexToAddress c) := by
    intro coin c h
    obtain ⟨hd, -⟩ := (decode_ok_iff _ _).1 h
    rw [newERC20TokenFromCoin_lib, hd, trimPrefix_append]
  constructor
  · intro coin c h
    obtain ⟨-, hv⟩ := (decode_ok_iff _ _).1 h
    refine ⟨rfl, hdec coin c h, ?_, newERC20TokenFromCoin_lib_valid keccak256 coin⟩
    rw [hdec coin c h]
    exact lowerCase_hex_hexToAddress keccak256 ((validate_eq_none_iff c).1 hv)
  · intro t ht
    have hv : ValidateEthereumAddress t.Contract = none := (validateBasic_eq_none_iff t).1 ht
    have hc : (NewERC20TokenFromCoin (goEthereumLib keccak256) t.GravityCoin).Contract =
        checksumHex keccak256 (HexToAddress t.Contract) :=
      hdec t.GravityCoin t.Contract ((decode_ok_iff _ _).2 ⟨rfl, hv⟩)
    refine ⟨rfl, ?_, ?_, ?_⟩
    · rw [hc]
      exact lowerCase_hex_hexToAddress keccak256 ((validate_eq_none_iff _).1 hv)
    · exact (validateBasic_eq_none_iff _).2 (newERC20TokenFromCoin_lib_valid keccak256 _)
    · have h2 := newERC20TokenFromCoin_append (goEthereumLib keccak256)
        (NewERC20TokenFromCoin (goEthereumLib keccak256) t.GravityCoin).Amount
        (NewERC20TokenFromCoin (goEthereumLib keccak256) t.GravityCoin).Contract
      have h3 : (NewERC20TokenFromCoin (goEthereumLib keccak256) t.GravityCoin).GravityCoin =
          { Denom := GravityDenomPrefix ++ GravityDenomSeparator ++
              (NewERC20TokenFromCoin (goEthereumLib keccak256) t.GravityCoin).Contract,
            Amount := (NewERC20TokenFromCoin (goEthereumLib keccak256) t.GravityCoin).Amount } :=
        rfl
      rw [h3, h2]
      have h4 : (goEthereumLib keccak256).Hex ((goEthereumLib keccak256).HexToAddress
            (NewERC20TokenFromCoin (goEthereumLib keccak256) t.GravityCoin).Contract) =
          (NewERC20TokenFromCoin (goEthereumLib keccak256) t.GravityCoin).Contract := by
        rw [hc]
        show checksumHex keccak256 (HexToAddress (checksumHex keccak256 _)) = _
        rw [hexToAddress_checksumHex keccak256 (hexToAddress_length _)]
      rw [h4]

/-- Witness for C11 (as the code has it): the coin `5 gravity0x00…00ab` decodes to
`0x00…00ab`, and the token returned has that contract up to letter case. -/
theorem newERC20TokenFromCoin_of_decoded_up_to_case_witness :
    GravityDenomToERC20 (lit "gravity0x00000000000000000000000000000000000000ab") =
      (lit "0x00000000000000000000000000000000000000ab", none) ∧
    ∀ keccak256 : GoString → Nat → Byte,
      lowerCase (NewERC20TokenFromCoin (goEthereumLib keccak256)
          { Denom := lit "gravity0x00000000000000000000000000000000000000ab",
            Amount := 5 }).Contract =
        lowerCase (lit "0x00000000000000000000000000000000000000ab") :=
  ⟨by decide, fun keccak256 =>
    ((newERC20TokenFromCoin_of_decoded_up_to_case keccak256).1
      { Denom := lit "gravity0x00000000000000000000000000000000000000ab", Amount := 5 }
      (lit "0x00000000000000000000000000000000000000ab") (by decide)).2.2.1⟩

end Gravity
